import Mathlib

/-!
Shallow embedding of the condition-polling / retry primitive of the
repository (src/features/utils/WaitHelper.ts, and its duplicate bundled at
the end of src/features/utils/AccessibilityAudit.ts).

Modelling conventions:
* Wall-clock time is an abstract millisecond counter (a natural number).
  `Date.now() - start` is the `t` parameter threaded through the loop;
  `await new Promise((resolve) => setTimeout(resolve, pollIntervalMs))`
  advances it by exactly `pollIntervalMs`; the time consumed by one
  evaluation of the caller-supplied condition is its `latency` field.
* The caller-supplied async `condition` is modelled as a function from the
  invocation index (0-based) to the outcome of that invocation: a latency
  together with `Except.ok b` (the promise resolves to boolean `b`) or
  `Except.error e` (the promise rejects with `e`).
* `timeoutMs` and `maxRetries` are JavaScript numbers that the code
  compares with `<`; they are modelled as integers so that zero and
  negative arguments are expressible.
* The `while` loop of `waitForCondition` can genuinely fail to terminate
  under this abstraction (zero poll interval and zero-latency conditions),
  so it is written against an explicit fuel parameter; `none` means the
  fuel was exhausted before the loop exited.  All theorems quantify over
  every sufficiently large fuel.
* `throw lastError` at the end of `retryOperation` throws whatever the
  variable `lastError` holds; since `let lastError: unknown;` leaves it
  uninitialized, the thrown value is modelled as an `Option E`, `none`
  standing for the JavaScript value `undefined`.
-/

namespace PlaywrightHybrid

/-- Outcome of one invocation of a caller-supplied condition: the time the
evaluation consumes and its result (`Except.error e` models a rejected
promise). -/
structure CondStep (E : Type) where
  latency : Nat
  result : Except E Bool

/-- Value with which a `waitForCondition` call settles: normal return,
the `new Error` built on line 15 of WaitHelper.ts (it interpolates the
configured `timeoutMs` into its message, so the constructor carries that
value), or a propagated condition rejection. -/
inductive WaitResult (E : Type) where
  | ok : WaitResult E
  | timeoutErr (timeoutMs : Int) : WaitResult E
  | condErr (e : E) : WaitResult E
deriving DecidableEq, Repr

/-- Observable trace of one `waitForCondition` call: how it settled, how
many times the condition was invoked, how many sleeps were performed, the
final value of `Date.now() - start`, and the value of `Date.now() - start`
at each condition invocation, in order. -/
structure WaitOutcome (E : Type) where
  result : WaitResult E
  evals : Nat
  sleeps : Nat
  elapsed : Nat
  evalTimes : List Nat
deriving DecidableEq, Repr

namespace WaitHelper

/-- Default of the `timeoutMs` parameter of `WaitHelper.waitForCondition`
(literal 5000 in WaitHelper.ts). -/
def defaultTimeoutMs : Int := 5000

/-- Default of the `pollIntervalMs` parameter of
`WaitHelper.waitForCondition` (literal 100 in WaitHelper.ts). -/
def defaultPollIntervalMs : Nat := 100

/-- Default of the `maxRetries` parameter of `WaitHelper.retryOperation`
(literal 3 in WaitHelper.ts). -/
def defaultMaxRetries : Int := 3

/-- Loop of `WaitHelper.waitForCondition`:
`while (Date.now() - start < timeoutMs) { if (await condition()) return;`
`await new Promise((resolve) => setTimeout(resolve, pollIntervalMs)); }`
`throw new Error(...)`.
`i` is the number of condition invocations performed so far, `t` the
current `Date.now() - start`, `tr` the times of the invocations so far. -/
def waitLoop (cond : Nat → CondStep E) (timeoutMs : Int) (pollIntervalMs : Nat) :
    Nat → Nat → Nat → List Nat → Option (WaitOutcome E)
  | 0, _, _, _ => none
  | fuel + 1, i, t, tr =>
    if (t : Int) < timeoutMs then
      match (cond i).result with
      | Except.error e =>
          some ⟨WaitResult.condErr e, i + 1, i, t + (cond i).latency, tr ++ [t]⟩
      | Except.ok true =>
          some ⟨WaitResult.ok, i + 1, i, t + (cond i).latency, tr ++ [t]⟩
      | Except.ok false =>
          waitLoop cond timeoutMs pollIntervalMs fuel (i + 1)
            (t + (cond i).latency + pollIntervalMs) (tr ++ [t])
    else
      some ⟨WaitResult.timeoutErr timeoutMs, i, i, t, tr⟩

/-- Embedding of `WaitHelper.waitForCondition`: record the start time
(`t = 0` relative to start) and run the polling loop. -/
def waitForCondition (cond : Nat → CondStep E) (timeoutMs : Int)
    (pollIntervalMs : Nat) (fuel : Nat) : Option (WaitOutcome E) :=
  waitLoop cond timeoutMs pollIntervalMs fuel 0 0 []

/-- Value with which a `retryOperation` call settles: the first successful
result, or `throw lastError` (`thrown none` models `lastError` still being
`undefined` because no attempt ever ran). -/
inductive RetryResult (E T : Type) where
  | ok (v : T) : RetryResult E T
  | thrown (e : Option E) : RetryResult E T
deriving DecidableEq, Repr

/-- Loop of `WaitHelper.retryOperation`:
`for (let attempt = 0; attempt < maxRetries; attempt++) {`
`try { return await operation(); } catch (error) { lastError = error; } }`
`throw lastError`.
The loop guard `attempt < maxRetries` with `attempt` counting up from 0
runs the body exactly `max(maxRetries, 0)` times unless a `return` exits
early, so the remaining iteration count `rem` (starting at
`maxRetries.toNat`) drives the recursion while `attempt` tracks the counter.
The second component of the value is the number of invocations of
`operation` performed. -/
def retryLoop (op : Nat → Except E T) :
    Nat → Nat → Option E → RetryResult E T × Nat
  | 0, attempt, lastError => (RetryResult.thrown lastError, attempt)
  | rem + 1, attempt, _ =>
    match op attempt with
    | Except.ok v => (RetryResult.ok v, attempt + 1)
    | Except.error e => retryLoop op rem (attempt + 1) (some e)

/-- Embedding of `WaitHelper.retryOperation`: `lastError` starts out
uninitialized (`none`), `attempt` starts at 0. -/
def retryOperation (op : Nat → Except E T) (maxRetries : Int) :
    RetryResult E T × Nat :=
  retryLoop op maxRetries.toNat 0 none

end WaitHelper

/-!
The `WaitHelper` class bundled at the end of
src/features/utils/AccessibilityAudit.ts.  Its `waitForCondition` and
`retryOperation` bodies repeat WaitHelper.ts verbatim; the defaults are the
named constants `DEFAULT_TIMEOUT_MS` and `DEFAULT_POLL_INTERVAL_MS` instead
of literals, and `maxRetries` again defaults to the literal 3.  It is
embedded as the separate namespace `AuditWaitHelper` so its equivalence with
`WaitHelper` is a theorem, not a definition.
-/

namespace AuditWaitHelper

/-- The constant `static readonly DEFAULT_TIMEOUT_MS = 5000`. -/
def DEFAULT_TIMEOUT_MS : Int := 5000

/-- The constant `static readonly DEFAULT_POLL_INTERVAL_MS = 100`. -/
def DEFAULT_POLL_INTERVAL_MS : Nat := 100

/-- The constant `static readonly SHORT_TIMEOUT_MS = 3000`. -/
def SHORT_TIMEOUT_MS : Int := 3000

/-- The constant `static readonly LONG_TIMEOUT_MS = 10000`. -/
def LONG_TIMEOUT_MS : Int := 10000

/-- The constant `static readonly SLOW_POLL_INTERVAL_MS = 150`. -/
def SLOW_POLL_INTERVAL_MS : Nat := 150

/-- The constant `static readonly RETRY_DELAY_MS = 500`. -/
def RETRY_DELAY_MS : Nat := 500

/-- Default of the `maxRetries` parameter of the duplicate
`retryOperation` (literal 3 in AccessibilityAudit.ts). -/
def defaultMaxRetries : Int := 3

/-- Loop of the duplicate `waitForCondition` in AccessibilityAudit.ts;
line for line the same code as `WaitHelper.waitLoop`. -/
def waitLoop (cond : Nat → CondStep E) (timeoutMs : Int) (pollIntervalMs : Nat) :
    Nat → Nat → Nat → List Nat → Option (WaitOutcome E)
  | 0, _, _, _ => none
  | fuel + 1, i, t, tr =>
    if (t : Int) < timeoutMs then
      match (cond i).result with
      | Except.error e =>
          some ⟨WaitResult.condErr e, i + 1, i, t + (cond i).latency, tr ++ [t]⟩
      | Except.ok true =>
          some ⟨WaitResult.ok, i + 1, i, t + (cond i).latency, tr ++ [t]⟩
      | Except.ok false =>
          waitLoop cond timeoutMs pollIntervalMs fuel (i + 1)
            (t + (cond i).latency + pollIntervalMs) (tr ++ [t])
    else
      some ⟨WaitResult.timeoutErr timeoutMs, i, i, t, tr⟩

/-- Embedding of the duplicate `waitForCondition`. -/
def waitForCondition (cond : Nat → CondStep E) (timeoutMs : Int)
    (pollIntervalMs : Nat) (fuel : Nat) : Option (WaitOutcome E) :=
  waitLoop cond timeoutMs pollIntervalMs fuel 0 0 []

/-- Loop of the duplicate `retryOperation` in AccessibilityAudit.ts;
line for line the same code as `WaitHelper.retryLoop`. -/
def retryLoop (op : Nat → Except E T) :
    Nat → Nat → Option E → WaitHelper.RetryResult E T × Nat
  | 0, attempt, lastError => (WaitHelper.RetryResult.thrown lastError, attempt)
  | rem + 1, attempt, _ =>
    match op attempt with
    | Except.ok v => (WaitHelper.RetryResult.ok v, attempt + 1)
    | Except.error e => retryLoop op rem (attempt + 1) (some e)

/-- Embedding of the duplicate `retryOperation`. -/
def retryOperation (op : Nat → Except E T) (maxRetries : Int) :
    WaitHelper.RetryResult E T × Nat :=
  retryLoop op maxRetries.toNat 0 none

end AuditWaitHelper

/-! Supporting lemmas about `retryLoop`. -/

open WaitHelper

/-- Running `retryLoop` on an operation that fails on every invocation
exhausts the remaining budget and rethrows the error captured last. -/
lemma retryLoop_allFail (op : Nat → Except E T) (errs : Nat → E)
    (hop : ∀ i, op i = Except.error (errs i)) :
    ∀ rem attempt lastError, retryLoop op rem attempt lastError =
      (RetryResult.thrown (if rem = 0 then lastError else some (errs (attempt + rem - 1))),
        attempt + rem) := by
  intro rem
  induction rem with
  | zero => intro attempt lastError; simp [retryLoop]
  | succ r ih =>
    intro attempt lastError
    simp only [retryLoop, hop attempt]
    rw [ih (attempt + 1)]
    rcases Nat.eq_zero_or_pos r with hr | hr
    · subst hr; simp
    · have h1 : r + 1 ≠ 0 := by omega
      have h2 : r ≠ 0 := by omega
      simp only [h1, h2, if_false]
      have hidx : attempt + 1 + r - 1 = attempt + (r + 1) - 1 := by omega
      have hcnt : attempt + 1 + r = attempt + (r + 1) := by omega
      rw [hidx, hcnt]

/-- Running `retryLoop` on an operation that fails on its first `m`
invocations (counting from the current `attempt`) and succeeds on the next
one returns that success, provided the budget covers the successful
attempt. -/
lemma retryLoop_succeeds (op : Nat → Except E T) (R : T) :
    ∀ m attempt rem lastError,
      (∀ j, j < m → ∃ e, op (attempt + j) = Except.error e) →
      op (attempt + m) = Except.ok R → m < rem →
      retryLoop op rem attempt lastError = (RetryResult.ok R, attempt + m + 1) := by
  intro m
  induction m with
  | zero =>
    intro attempt rem lastError _ hsucc hrem
    obtain ⟨r, rfl⟩ : ∃ r, rem = r + 1 := ⟨rem - 1, by omega⟩
    have h0 : op attempt = Except.ok R := by simpa using hsucc
    simp [retryLoop, h0]
  | succ m ih =>
    intro attempt rem lastError hfail hsucc hrem
    obtain ⟨r, rfl⟩ : ∃ r, rem = r + 1 := ⟨rem - 1, by omega⟩
    obtain ⟨e, he⟩ : ∃ e, op attempt = Except.error e := by
      simpa using hfail 0 (by omega)
    simp only [retryLoop, he]
    have hfail' : ∀ j, j < m → ∃ e, op (attempt + 1 + j) = Except.error e := by
      intro j hj
      have := hfail (j + 1) (by omega)
      simpa [Nat.add_assoc, Nat.add_comm 1 j] using this
    have hsucc' : op (attempt + 1 + m) = Except.ok R := by
      have h := hsucc
      rwa [show attempt + (m + 1) = attempt + 1 + m by omega] at h
    rw [ih (attempt + 1) r (some e) hfail' hsucc' (by omega)]
    congr 1
    omega

/-- Number of invocations performed by `retryLoop` is bounded by the
attempt counter plus the remaining budget. -/
lemma retryLoop_count_le (op : Nat → Except E T) :
    ∀ rem attempt lastError,
      (retryLoop op rem attempt lastError).2 ≤ attempt + rem := by
  intro rem
  induction rem with
  | zero => intro attempt lastError; simp [retryLoop]
  | succ r ih =>
    intro attempt lastError
    simp only [retryLoop]
    rcases h : op attempt with e | v
    · exact le_trans (ih (attempt + 1) (some e)) (by omega)
    · show attempt + 1 ≤ attempt + (r + 1)
      omega

/-! Supporting lemmas about `waitLoop`. -/

/-- Value with which the polling loop settles when a condition invocation
is decisive: normal return on `ok true`, propagation on rejection. -/
def settleResult : Except E Bool → WaitResult E
  | Except.ok _ => WaitResult.ok
  | Except.error e => WaitResult.condErr e

/-- Shifting a time grid by one poll interval. -/
lemma range_map_shift (t p m : Nat) :
    (List.range (m + 1)).map (fun j => t + j * p) =
      t :: (List.range m).map (fun j => t + p + j * p) := by
  rw [List.range_succ_eq_map, List.map_cons, List.map_map]
  congr 1
  · simp
  · have hf : ((fun j => t + j * p) ∘ Nat.succ) = fun j => t + p + j * p := by
      funext j
      simp only [Function.comp, Nat.succ_mul]
      omega
    rw [hf]

/-- Running `waitLoop` over a condition that is false on its next `m`
invocations and decisive (true or rejecting) on the one after, with every
involved poll instant inside the budget and zero condition latency: the
loop performs exactly `m + 1` further invocations, `m` further sleeps, and
settles according to the decisive invocation. -/
lemma waitLoop_run (cond : Nat → CondStep E) (timeout : Int) (p : Nat)
    (hlat : ∀ i, (cond i).latency = 0) :
    ∀ m i t tr fuel, m < fuel →
      (∀ j, j < m → (cond (i + j)).result = Except.ok false) →
      (cond (i + m)).result ≠ Except.ok false →
      (∀ j, j ≤ m → (((t + j * p : Nat) : Int) < timeout)) →
      waitLoop cond timeout p fuel i t tr =
        some ⟨settleResult (cond (i + m)).result, i + m + 1, i + m, t + m * p,
          tr ++ (List.range (m + 1)).map (fun j => t + j * p)⟩ := by
  intro m
  induction m with
  | zero =>
    intro i t tr fuel hfuel hfalse hdec hguard
    obtain ⟨f, rfl⟩ : ∃ f, fuel = f + 1 := ⟨fuel - 1, by omega⟩
    have hg : ((t : Nat) : Int) < timeout := by simpa using hguard 0 (le_refl 0)
    have hi0 : i + 0 = i := rfl
    rw [hi0] at hdec ⊢
    simp only [waitLoop]
    rw [if_pos hg]
    rcases hres : (cond i).result with e | b
    · simp [settleResult, hres, hlat i, List.range_succ]
    · rcases b with _ | _
      · exact absurd hres hdec
      · simp [settleResult, hres, hlat i, List.range_succ]
  | succ m ih =>
    intro i t tr fuel hfuel hfalse hdec hguard
    obtain ⟨f, rfl⟩ : ∃ f, fuel = f + 1 := ⟨fuel - 1, by omega⟩
    have hg : ((t : Nat) : Int) < timeout := by simpa using hguard 0 (Nat.zero_le _)
    have h0 : (cond i).result = Except.ok false := hfalse 0 (Nat.succ_pos m)
    simp only [waitLoop]
    rw [if_pos hg, h0, hlat i]
    have hfalse' : ∀ j, j < m → (cond (i + 1 + j)).result = Except.ok false := by
      intro j hj
      have h := hfalse (j + 1) (by omega)
      rwa [show i + (j + 1) = i + 1 + j by omega] at h
    have hdec' : (cond (i + 1 + m)).result ≠ Except.ok false := by
      rwa [show i + 1 + m = i + (m + 1) by omega]
    have hguard' : ∀ j, j ≤ m → (((t + p + j * p : Nat) : Int) < timeout) := by
      intro j hj
      have h := hguard (j + 1) (by omega)
      rwa [show t + (j + 1) * p = t + p + j * p by rw [Nat.succ_mul]; omega] at h
    rw [show t + 0 + p = t + p by omega]
    rw [ih (i + 1) (t + p) (tr ++ [t]) f (by omega) hfalse' hdec' hguard']
    have h1 : i + 1 + m = i + (m + 1) := by omega
    have h2 : t + p + m * p = t + (m + 1) * p := by
      rw [Nat.succ_mul]
      omega
    have h3 : tr ++ [t] ++ (List.range (m + 1)).map (fun j => t + p + j * p) =
        tr ++ (List.range (m + 1 + 1)).map (fun j => t + j * p) := by
      rw [range_map_shift t p (m + 1), List.append_assoc]
      rfl
    rw [h1, h2, h3]

/-- Claim C3: for every condition that is false on its first `k`
evaluations and true on the `(k+1)`-th, with `timeout > 0` and
`k * pollInterval < timeout` (evaluation latency zero), `waitForCondition`
succeeds, invokes the condition exactly `k + 1` times, and sleeps exactly
`k` times (`k = 0`: no sleep and no second invocation; no sleep is
performed after the successful check). -/
theorem waitForCondition_eventual_success (cond : Nat → CondStep E) (k : Nat)
    (timeout : Int) (p fuel : Nat)
    (hlat : ∀ i, (cond i).latency = 0)
    (hfalse : ∀ i, i < k → (cond i).result = Except.ok false)
    (htrue : (cond k).result = Except.ok true)
    (htimeout : 0 < timeout)
    (hk : ((k * p : Nat) : Int) < timeout)
    (hfuel : k < fuel) :
    waitForCondition cond timeout p fuel =
      some ⟨WaitResult.ok, k + 1, k, k * p,
        (List.range (k + 1)).map (fun j => j * p)⟩ := by
  unfold waitForCondition
  have hguard : ∀ j, j ≤ k → (((0 + j * p : Nat) : Int) < timeout) := by
    intro j hj
    have hle : j * p ≤ k * p := Nat.mul_le_mul_right p hj
    have hle' : ((j * p : Nat) : Int) ≤ ((k * p : Nat) : Int) := by exact_mod_cast hle
    have h0 : ((0 + j * p : Nat) : Int) = ((j * p : Nat) : Int) := by
      rw [Nat.zero_add]
    rw [h0]
    omega
  have h := waitLoop_run cond timeout p hlat k 0 0 [] fuel hfuel
    (by intro j hj; rw [Nat.zero_add]; exact hfalse j hj)
    (by rw [Nat.zero_add, htrue]; simp)
    hguard
  rw [h]
  simp [settleResult, htrue]

/-- Witness for C3: a condition that is false twice and then true,
`timeout = 1000`, `pollInterval = 50`: success after exactly three
invocations, two sleeps, at elapsed time 100. -/
theorem waitForCondition_eventual_success_witness :
    WaitHelper.waitForCondition
      (fun i => (⟨0, Except.ok (decide (2 ≤ i))⟩ : CondStep Unit)) 1000 50 10 =
      some ⟨WaitResult.ok, 3, 2, 100, [0, 50, 100]⟩ := by
  have h := waitForCondition_eventual_success
    (fun i => (⟨0, Except.ok (decide (2 ≤ i))⟩ : CondStep Unit)) 2 1000 50 10
    (fun _ => rfl)
    (by
      intro i hi
      rcases i with _ | i
      · rfl
      · rcases i with _ | i
        · rfl
        · omega)
    rfl (by decide) (by decide) (by decide)
  rw [h]
  decide

/-- Claim C6: a condition rejection is propagated immediately and
unchanged: a condition false on its first `k` evaluations and rejecting
with `e` on the `(k+1)`-th (reached inside the budget, latency zero) makes
`waitForCondition` settle with exactly `e` after exactly `k + 1`
invocations — the rejection is not treated as false, not re-polled
through, and not wrapped or translated. -/
theorem waitForCondition_propagates_condition_error (cond : Nat → CondStep E)
    (k : Nat) (e : E) (timeout : Int) (p fuel : Nat)
    (hlat : ∀ i, (cond i).latency = 0)
    (hfalse : ∀ i, i < k → (cond i).result = Except.ok false)
    (herr : (cond k).result = Except.error e)
    (hk : ((k * p : Nat) : Int) < timeout)
    (hfuel : k < fuel) :
    waitForCondition cond timeout p fuel =
      some ⟨WaitResult.condErr e, k + 1, k, k * p,
        (List.range (k + 1)).map (fun j => j * p)⟩ := by
  unfold waitForCondition
  have hguard : ∀ j, j ≤ k → (((0 + j * p : Nat) : Int) < timeout) := by
    intro j hj
    have hle : j * p ≤ k * p := Nat.mul_le_mul_right p hj
    have hle' : ((j * p : Nat) : Int) ≤ ((k * p : Nat) : Int) := by exact_mod_cast hle
    have h0 : ((0 + j * p : Nat) : Int) = ((j * p : Nat) : Int) := by
      rw [Nat.zero_add]
    rw [h0]
    omega
  have h := waitLoop_run cond timeout p hlat k 0 0 [] fuel hfuel
    (by intro j hj; rw [Nat.zero_add]; exact hfalse j hj)
    (by rw [Nat.zero_add, herr]; simp)
    hguard
  rw [h]
  simp [settleResult, herr]

/-- Witness for C6: a condition false twice then rejecting with 7,
`timeout = 1000`, `pollInterval = 50`: the rejection surfaces untouched
after exactly three invocations. -/
theorem waitForCondition_propagates_condition_error_witness :
    WaitHelper.waitForCondition
      (fun i => (⟨0, if i < 2 then Except.ok false else Except.error 7⟩ :
        CondStep Nat)) 1000 50 10 =
      some ⟨WaitResult.condErr 7, 3, 2, 100, [0, 50, 100]⟩ := by
  have h := waitForCondition_propagates_condition_error
    (fun i => (⟨0, if i < 2 then Except.ok false else Except.error 7⟩ :
      CondStep Nat)) 2 7 1000 50 10
    (fun _ => rfl)
    (by
      intro i hi
      rcases i with _ | i
      · rfl
      · rcases i with _ | i
        · rfl
        · omega)
    rfl (by decide) (by decide)
  rw [h]
  decide

/-- Every settled run of the polling loop ends in exactly one of three
ways: normal return, a propagated condition rejection, or the timeout
error carrying the configured `timeoutMs`. -/
lemma waitLoop_result_cases (cond : Nat → CondStep E) (timeout : Int) (p : Nat) :
    ∀ fuel i t tr out, waitLoop cond timeout p fuel i t tr = some out →
      out.result = WaitResult.ok ∨ (∃ e, out.result = WaitResult.condErr e) ∨
        out.result = WaitResult.timeoutErr timeout := by
  intro fuel
  induction fuel with
  | zero => intro i t tr out h; simp [waitLoop] at h
  | succ f ih =>
    intro i t tr out h
    simp only [waitLoop] at h
    by_cases hg : ((t : Nat) : Int) < timeout
    · rw [if_pos hg] at h
      rcases hres : (cond i).result with e | b
      · rw [hres] at h
        injection h with h
        subst h
        exact Or.inr (Or.inl ⟨e, rfl⟩)
      · rcases b with _ | _
        · rw [hres] at h
          exact ih _ _ _ _ h
        · rw [hres] at h
          injection h with h
          subst h
          exact Or.inl rfl
    · rw [if_neg hg] at h
      injection h with h
      subst h
      exact Or.inr (Or.inr rfl)

/-- Claim C5: when `waitForCondition` fails other than by propagating a
condition rejection, the failure is the timeout error carrying the
configured timeout value, and that error is distinguishable from any
propagated condition error. -/
theorem waitForCondition_timeout_error_kind (cond : Nat → CondStep E)
    (timeout : Int) (p fuel : Nat) (out : WaitOutcome E)
    (h : waitForCondition cond timeout p fuel = some out)
    (hnotok : out.result ≠ WaitResult.ok)
    (hnotcond : ∀ e, out.result ≠ WaitResult.condErr e) :
    out.result = WaitResult.timeoutErr timeout ∧
      ∀ (tm : Int) (e : E),
        (WaitResult.timeoutErr tm : WaitResult E) ≠ WaitResult.condErr e := by
  constructor
  · rcases waitLoop_result_cases cond timeout p fuel 0 0 [] out h with
      h1 | ⟨e, h2⟩ | h3
    · exact absurd h1 hnotok
    · exact absurd h2 (hnotcond e)
    · exact h3
  · intro tm e hcontra
    exact WaitResult.noConfusion hcontra

/-- Witness for C5: a concrete always-false run (timeout 250, interval
100) ends in the timeout error carrying 250. -/
theorem waitForCondition_timeout_error_kind_witness :
    (⟨WaitResult.timeoutErr 250, 3, 3, 300, [0, 100, 200]⟩ :
        WaitOutcome Unit).result = WaitResult.timeoutErr 250 ∧
      ∀ (tm : Int) (e : Unit),
        (WaitResult.timeoutErr tm : WaitResult Unit) ≠ WaitResult.condErr e :=
  waitForCondition_timeout_error_kind
    (fun _ => (⟨0, Except.ok false⟩ : CondStep Unit)) 250 100 5
    ⟨WaitResult.timeoutErr 250, 3, 3, 300, [0, 100, 200]⟩
    (by decide)
    (fun hcontra => WaitResult.noConfusion hcontra)
    (fun e hcontra => WaitResult.noConfusion hcontra)

/-- Prepending a smaller head preserves a non-decreasing chain. -/
lemma chain'_cons_of_le {t u : Nat} {s : List Nat} (hle : t ≤ u)
    (h : List.Chain' (· ≤ ·) (u :: s)) : List.Chain' (· ≤ ·) (t :: s) := by
  cases s with
  | nil => simp
  | cons a s' =>
    rw [List.chain'_cons] at h ⊢
    exact ⟨le_trans hle h.1, h.2⟩

/-- Eval instants recorded past the current trace form a non-decreasing
chain starting no earlier than the current clock. -/
lemma waitLoop_evalTimes_chain (cond : Nat → CondStep E) (timeout : Int) (p : Nat) :
    ∀ fuel i t tr out, waitLoop cond timeout p fuel i t tr = some out →
      ∃ s, out.evalTimes = tr ++ s ∧ List.Chain' (· ≤ ·) (t :: s) := by
  intro fuel
  induction fuel with
  | zero => intro i t tr out h; simp [waitLoop] at h
  | succ f ih =>
    intro i t tr out h
    simp only [waitLoop] at h
    by_cases hg : ((t : Nat) : Int) < timeout
    · rw [if_pos hg] at h
      rcases hres : (cond i).result with e | b
      · rw [hres] at h
        injection h with h
        subst h
        exact ⟨[t], rfl, by simp⟩
      · rcases b with _ | _
        · rw [hres] at h
          obtain ⟨s', hs', hchain'⟩ := ih _ _ _ _ h
          refine ⟨t :: s', ?_, ?_⟩
          · rw [hs', List.append_assoc]
            rfl
          · rw [List.chain'_cons]
            exact ⟨le_refl t, chain'_cons_of_le (by omega) hchain'⟩
        · rw [hres] at h
          injection h with h
          subst h
          exact ⟨[t], rfl, by simp⟩
    · rw [if_neg hg] at h
      injection h with h
      subst h
      exact ⟨[], by simp, by simp⟩

/-- Claim C8: in every run of `retryOperation` the attempt counter starts
at zero, is a natural number (never negative), and bounds the number of
operation invocations by `max(maxRetries, 0)` whatever the attempts do;
and in every settled run of `waitForCondition` the elapsed times observed
at successive polls are monotonically non-decreasing. -/
theorem wait_retry_invariants (op : Nat → Except E T) (maxRetries : Int)
    (cond : Nat → CondStep F) (timeout : Int) (p fuel : Nat)
    (out : WaitOutcome F)
    (h : waitForCondition cond timeout p fuel = some out) :
    (retryOperation op maxRetries).2 ≤ maxRetries.toNat ∧
      List.Chain' (· ≤ ·) out.evalTimes := by
  constructor
  · have hc := retryLoop_count_le op maxRetries.toNat 0 none
    simpa [retryOperation] using hc
  · obtain ⟨s, hs, hchain⟩ := waitLoop_evalTimes_chain cond timeout p fuel 0 0 [] out h
    rw [hs]
    simpa using hchain.tail

/-- Witness for C8: attempt bound at an always-failing operation with
budget 3, and monotone poll instants of a concrete always-false wait. -/
theorem wait_retry_invariants_witness :
    (retryOperation (fun _ => (Except.error 0 : Except Nat Unit)) 3).2 ≤
        (3 : Int).toNat ∧
      List.Chain' (· ≤ ·)
        ((⟨WaitResult.timeoutErr 300, 3, 3, 300, [0, 100, 200]⟩ :
          WaitOutcome Unit).evalTimes) :=
  wait_retry_invariants (fun _ => (Except.error 0 : Except Nat Unit)) 3
    (fun _ => (⟨0, Except.ok false⟩ : CondStep Unit)) 300 100 5
    ⟨WaitResult.timeoutErr 300, 3, 3, 300, [0, 100, 200]⟩
    (by decide)

/-- Ceiling-division arithmetic for the per-iteration progress of the
polling loop. -/
lemma nat_ceil_div_step (a b p : Nat) (hp : 0 < p) (ha : 1 ≤ a)
    (hb : b ≤ a - p) : (b + p - 1) / p + 1 ≤ (a + p - 1) / p := by
  have h1 : a + p - 1 = (a - 1) + p := by omega
  rw [h1, Nat.add_div_right _ hp]
  have h2 : (b + p - 1) / p ≤ (a - 1) / p := by
    rcases Nat.lt_or_ge a p with hap | hap
    · have hb0 : b = 0 := by omega
      have h3 : b + p - 1 < p := by omega
      rw [Nat.div_eq_of_lt h3]
      exact Nat.zero_le _
    · exact Nat.div_le_div_right (by omega)
  exact Nat.succ_le_succ h2

/-- Invariant run of the polling loop over an always-false condition with
per-evaluation latency at most `L` and positive poll interval: with enough
fuel the loop settles in the timeout error; the final clock is at least
the budget and (unless the loop never ran) under budget plus one latency
plus one interval; the number of evaluations performed is bounded by the
ceiling of remaining budget over the interval. -/
lemma waitLoop_alwaysFalse (cond : Nat → CondStep E) (timeout : Int) (p L : Nat)
    (hfalse : ∀ i, (cond i).result = Except.ok false)
    (hlat : ∀ i, (cond i).latency ≤ L)
    (hp : 0 < p) :
    ∀ fuel i t tr, 1 ≤ fuel → timeout.toNat ≤ t + (fuel - 1) * p →
      ∃ out, waitLoop cond timeout p fuel i t tr = some out ∧
        out.result = WaitResult.timeoutErr timeout ∧
        timeout ≤ (out.elapsed : Int) ∧
        (out.elapsed = t ∨ out.elapsed < timeout.toNat + L + p) ∧
        out.evals ≤ i + (timeout.toNat - t + p - 1) / p := by
  intro fuel
  induction fuel with
  | zero => intro i t tr h1 _; omega
  | succ f ih =>
    intro i t tr _ h2
    by_cases hg : ((t : Nat) : Int) < timeout
    · have hgT : t < timeout.toNat := Int.lt_toNat.mpr hg
      have hf1 : 1 ≤ f := by
        rcases Nat.eq_zero_or_pos f with hf0 | hf0
        · subst hf0
          simp at h2
          omega
        · exact hf0
      have hfp : f * p = (f - 1) * p + p := by
        conv_lhs => rw [show f = (f - 1) + 1 by omega]
        rw [Nat.succ_mul]
      have h2' : timeout.toNat ≤ (t + (cond i).latency + p) + (f - 1) * p := by
        have h2n : timeout.toNat ≤ t + f * p := h2
        omega
      obtain ⟨out, hout, hres, helb, held, hevals⟩ :=
        ih (i + 1) (t + (cond i).latency + p) (tr ++ [t]) hf1 h2'
      refine ⟨out, ?_, hres, helb, ?_, ?_⟩
      · simp only [waitLoop]
        rw [if_pos hg, hfalse i]
        exact hout
      · rcases held with hel | hel
        · have hli := hlat i
          exact Or.inr (by omega)
        · exact Or.inr hel
      · have hstep := nat_ceil_div_step (timeout.toNat - t)
          (timeout.toNat - (t + (cond i).latency + p)) p hp (by omega) (by omega)
        generalize hX : (timeout.toNat - (t + (cond i).latency + p) + p - 1) / p = X
          at hstep hevals
        generalize hY : (timeout.toNat - t + p - 1) / p = Y at hstep ⊢
        omega
    · refine ⟨⟨WaitResult.timeoutErr timeout, i, i, t, tr⟩, ?_, rfl, ?_,
        Or.inl rfl, ?_⟩
      · simp only [waitLoop]
        rw [if_neg hg]
      · show timeout ≤ ((t : Nat) : Int)
        omega
      · exact Nat.le_add_right i _

/-- Every condition invocation of the polling loop happens at a clock
instant strictly inside the budget: the timeout check precedes every
condition check. -/
lemma waitLoop_evalTimes_lt (cond : Nat → CondStep E) (timeout : Int) (p : Nat) :
    ∀ fuel i t tr out, waitLoop cond timeout p fuel i t tr = some out →
      ∀ x ∈ out.evalTimes, x ∈ tr ∨ ((x : Nat) : Int) < timeout := by
  intro fuel
  induction fuel with
  | zero => intro i t tr out h; simp [waitLoop] at h
  | succ f ih =>
    intro i t tr out h
    simp only [waitLoop] at h
    by_cases hg : ((t : Nat) : Int) < timeout
    · rw [if_pos hg] at h
      rcases hres : (cond i).result with e | b
      · rw [hres] at h
        injection h with h
        subst h
        intro x hx
        simp only [List.mem_append, List.mem_singleton] at hx
        rcases hx with hx | hx
        · exact Or.inl hx
        · subst hx
          exact Or.inr hg
      · rcases b with _ | _
        · rw [hres] at h
          intro x hx
          rcases ih _ _ _ _ h x hx with hmem | hlt
          · simp only [List.mem_append, List.mem_singleton] at hmem
            rcases hmem with hmem | hmem
            · exact Or.inl hmem
            · subst hmem
              exact Or.inr hg
          · exact Or.inr hlt
        · rw [hres] at h
          injection h with h
          subst h
          intro x hx
          simp only [List.mem_append, List.mem_singleton] at hx
          rcases hx with hx | hx
          · exact Or.inl hx
          · subst hx
            exact Or.inr hg
    · rw [if_neg hg] at h
      injection h with h
      subst h
      intro x hx
      exact Or.inl hx

/-- Claim C7: for every always-false condition, `timeout >= 0` and
`pollInterval > 0`, `waitForCondition` terminates in the timeout error
after at most `ceil(timeout / pollInterval)` condition evaluations, with
final elapsed time in `[timeout, timeout + latency-bound + pollInterval]`,
and the timeout check happens before each condition check (every
evaluation instant is strictly below the budget). -/
theorem waitForCondition_always_false_timeout_bound (cond : Nat → CondStep E)
    (timeout : Int) (p L fuel : Nat)
    (hfalse : ∀ i, (cond i).result = Except.ok false)
    (hlat : ∀ i, (cond i).latency ≤ L)
    (hp : 0 < p) (ht : 0 ≤ timeout)
    (hfuel1 : 1 ≤ fuel) (hfuel2 : timeout.toNat ≤ (fuel - 1) * p) :
    ∃ out, waitForCondition cond timeout p fuel = some out ∧
      out.result = WaitResult.timeoutErr timeout ∧
      out.evals ≤ (timeout.toNat + p - 1) / p ∧
      timeout ≤ (out.elapsed : Int) ∧
      (out.elapsed : Int) ≤ timeout + (L : Int) + (p : Int) ∧
      ∀ x ∈ out.evalTimes, ((x : Nat) : Int) < timeout := by
  obtain ⟨out, hout, hres, helb, held, hevals⟩ :=
    waitLoop_alwaysFalse cond timeout p L hfalse hlat hp fuel 0 0 [] hfuel1
      (by simpa using hfuel2)
  refine ⟨out, hout, hres, ?_, helb, ?_, ?_⟩
  · simpa using hevals
  · have htn : (timeout.toNat : Int) = timeout := Int.toNat_of_nonneg ht
    rcases held with hel | hel
    · rw [hel]
      omega
    · omega
  · intro x hx
    rcases waitLoop_evalTimes_lt cond timeout p fuel 0 0 [] out hout x hx with
      hmem | hlt
    · simp at hmem
    · exact hlt

/-- Witness for C7: always-false condition, timeout 500, interval 100,
zero latency, fuel 6. -/
theorem waitForCondition_always_false_timeout_bound_witness :
    ∃ out, WaitHelper.waitForCondition
        (fun _ => (⟨0, Except.ok false⟩ : CondStep Unit)) 500 100 6 = some out ∧
      out.result = WaitResult.timeoutErr 500 ∧
      out.evals ≤ ((500 : Int).toNat + 100 - 1) / 100 ∧
      (500 : Int) ≤ (out.elapsed : Int) ∧
      (out.elapsed : Int) ≤ 500 + ((0 : Nat) : Int) + ((100 : Nat) : Int) ∧
      ∀ x ∈ out.evalTimes, ((x : Nat) : Int) < 500 :=
  waitForCondition_always_false_timeout_bound
    (fun _ => (⟨0, Except.ok false⟩ : CondStep Unit)) 500 100 0 6
    (fun _ => rfl) (fun _ => Nat.le_refl 0)
    (by decide) (by decide) (by decide) (by decide)

/-- The two polling loops, one per duplicated class, agree on every
state. -/
lemma auditWaitLoop_eq (cond : Nat → CondStep E) (timeout : Int) (p : Nat) :
    ∀ fuel i t tr, AuditWaitHelper.waitLoop cond timeout p fuel i t tr =
      WaitHelper.waitLoop cond timeout p fuel i t tr := by
  intro fuel
  induction fuel with
  | zero => intro i t tr; rfl
  | succ f ih =>
    intro i t tr
    simp only [AuditWaitHelper.waitLoop, WaitHelper.waitLoop]
    by_cases hg : ((t : Nat) : Int) < timeout
    · rw [if_pos hg, if_pos hg]
      rcases hres : (cond i).result with e | b
      · rfl
      · rcases b with _ | _
        · exact ih (i + 1) (t + (cond i).latency + p) (tr ++ [t])
        · rfl
    · rw [if_neg hg, if_neg hg]

/-- The two retry loops, one per duplicated class, agree on every state. -/
lemma auditRetryLoop_eq (op : Nat → Except E T) :
    ∀ rem attempt lastError,
      AuditWaitHelper.retryLoop op rem attempt lastError =
        WaitHelper.retryLoop op rem attempt lastError := by
  intro rem
  induction rem with
  | zero => intro attempt lastError; rfl
  | succ r ih =>
    intro attempt lastError
    simp only [AuditWaitHelper.retryLoop, WaitHelper.retryLoop]
    rcases h : op attempt with e | v
    · exact ih (attempt + 1) (some e)
    · rfl

/-- Claim C10: the `WaitHelper` class of WaitHelper.ts and the `WaitHelper`
variant bundled at the end of AccessibilityAudit.ts are observationally
equivalent: for every condition, operation and argument, both
`waitForCondition` and both `retryOperation` produce identical outcomes
(same result, same invocation counts, same error), and the default
timeout, poll interval and retry count coincide. -/
theorem waitHelper_duplicates_equivalent (cond : Nat → CondStep E)
    (timeout : Int) (p fuel : Nat) (op : Nat → Except F T) (maxRetries : Int) :
    AuditWaitHelper.waitForCondition cond timeout p fuel =
        WaitHelper.waitForCondition cond timeout p fuel ∧
      AuditWaitHelper.retryOperation op maxRetries =
        WaitHelper.retryOperation op maxRetries ∧
      AuditWaitHelper.DEFAULT_TIMEOUT_MS = WaitHelper.defaultTimeoutMs ∧
      AuditWaitHelper.DEFAULT_POLL_INTERVAL_MS =
        WaitHelper.defaultPollIntervalMs ∧
      AuditWaitHelper.defaultMaxRetries = WaitHelper.defaultMaxRetries := by
  refine ⟨?_, ?_, rfl, rfl, rfl⟩
  · exact auditWaitLoop_eq cond timeout p fuel 0 0 []
  · exact auditRetryLoop_eq op maxRetries.toNat 0 none

/-- Claim C1 as stated is false against the code: with `timeout = 0` the
guard `Date.now() - start < timeoutMs` fails before the first condition
check, so the condition is evaluated zero times, not exactly once — here a
condition that is identically true still fails with the timeout error
after zero evaluations. -/
theorem zero_timeout_claim_counterexample :
    WaitHelper.waitForCondition
      (fun _ => (⟨0, Except.ok true⟩ : CondStep Unit)) 0 100 1 =
      some ⟨WaitResult.timeoutErr 0, 0, 0, 0, []⟩ := by
  decide

/-- Claim C1 (amended): for every condition and every positive
`pollInterval`, calling `waitForCondition(condition, 0, pollInterval)`
never evaluates the condition and fails immediately with the timeout
error, without sleeping. -/
theorem waitForCondition_zero_timeout (cond : Nat → CondStep E) (p fuel : Nat)
    (hp : 0 < p) (hfuel : 0 < fuel) :
    waitForCondition cond 0 p fuel =
      some ⟨WaitResult.timeoutErr 0, 0, 0, 0, []⟩ := by
  obtain ⟨f, rfl⟩ : ∃ f, fuel = f + 1 := ⟨fuel - 1, by omega⟩
  unfold waitForCondition
  simp only [waitLoop]
  rw [if_neg (by simp)]

/-- Witness for the amended C1 at a concrete condition. -/
theorem waitForCondition_zero_timeout_witness :
    WaitHelper.waitForCondition
      (fun _ => (⟨0, Except.ok false⟩ : CondStep Unit)) 0 100 5 =
      some ⟨WaitResult.timeoutErr 0, 0, 0, 0, []⟩ :=
  waitForCondition_zero_timeout _ 100 5 (by decide) (by decide)

/-- Claim C2: for every positive `maxAttempts` `n` and every operation that
fails on every invocation, `retryOperation` invokes the operation exactly
`n` times and then throws the error of the last (`n`-th) attempt; errors of
earlier attempts are discarded. -/
theorem retryOperation_exhaustion_last_error (op : Nat → Except E T)
    (errs : Nat → E) (hop : ∀ i, op i = Except.error (errs i))
    (n : Nat) (hn : 0 < n) :
    retryOperation op (n : Int) = (RetryResult.thrown (some (errs (n - 1))), n) := by
  unfold retryOperation
  rw [retryLoop_allFail op errs hop]
  have hcast : ((n : Int)).toNat = n := Int.toNat_natCast n
  rw [hcast]
  have hne : n ≠ 0 := by omega
  simp [hne]

/-- Witness for C2 at a concrete always-failing operation. -/
theorem retryOperation_exhaustion_last_error_witness :
    retryOperation (fun i => (Except.error i : Except Nat Unit)) ((3 : Nat) : Int) =
      (RetryResult.thrown (some 2), 3) :=
  retryOperation_exhaustion_last_error (fun i => Except.error i) (fun i => i)
    (fun _ => rfl) 3 (by decide)

/-- Claim C4: for every operation that fails on its first `k` invocations
and succeeds on invocation `k + 1` with result `R`, where `k < maxAttempts`,
`retryOperation` returns `R` and invokes the operation exactly `k + 1`
times. -/
theorem retryOperation_eventual_success (op : Nat → Except E T) (k : Nat)
    (R : T) (maxAttempts : Int)
    (hfail : ∀ j, j < k → ∃ e, op j = Except.error e)
    (hsucc : op k = Except.ok R)
    (hk : (k : Int) < maxAttempts) :
    retryOperation op maxAttempts = (RetryResult.ok R, k + 1) := by
  unfold retryOperation
  have hk' : k < maxAttempts.toNat := by omega
  have := retryLoop_succeeds op R k 0 maxAttempts.toNat none
    (by simpa using hfail) (by simpa using hsucc) hk'
  simpa using this

/-- Witness for C4 at a concrete operation failing twice then succeeding. -/
theorem retryOperation_eventual_success_witness :
    retryOperation (fun i => if i < 2 then (Except.error i : Except Nat Nat)
      else Except.ok 42) 5 = (RetryResult.ok 42, 3) := by
  have h := retryOperation_eventual_success
    (fun i => if i < 2 then (Except.error i : Except Nat Nat) else Except.ok 42)
    2 42 5
    (by
      intro j hj
      rcases j with _ | j
      · exact ⟨0, rfl⟩
      · rcases j with _ | j
        · exact ⟨1, rfl⟩
        · omega)
    rfl (by decide)
  simpa using h

/-- Claim C9: for every `maxRetries <= 0` the operation is never invoked and
the value thrown is the uninitialized `lastError`, i.e. `undefined`
(modelled `none`), not an `Error` object. -/
theorem retryOperation_nonpositive_attempts_throws_undefined
    (op : Nat → Except E T) (maxRetries : Int) (h : maxRetries ≤ 0) :
    retryOperation op maxRetries = (RetryResult.thrown none, 0) := by
  unfold retryOperation
  rw [Int.toNat_of_nonpos h]
  simp [retryLoop]

/-- Witness for C9 at `maxRetries = 0`. -/
theorem retryOperation_nonpositive_attempts_throws_undefined_witness :
    retryOperation (fun i => (Except.ok i : Except Unit Nat)) 0 =
      (RetryResult.thrown none, 0) :=
  retryOperation_nonpositive_attempts_throws_undefined _ 0 (by decide)

end PlaywrightHybrid
